import Mathlib

/-!
Shallow embedding of the Planning Poker server room state machine.
The repository contains two server variants:

* variant 1: deck `{1,2,3,5,10}`, `start-voting` requires at least two
  joined players, and round completion reveals the results synchronously
  inside the `submit-vote` handler;
* variant 2: deck `{1,2,3,5,8,13,21,34,55,89}`, `start-voting` is
  unconditional, and round completion emits a countdown marker and
  schedules a deferred reveal callback (`setTimeout`, 3000 ms) that flips
  the phase to `results` and broadcasts the result payload when it fires.

JS numbers are modelled as rationals; a JS `Map` is modelled as an
association list in insertion order (`Map.set` updates in place or appends,
`Map.delete` removes the key, `Map.size` is the list length).  A possibly
non-string event payload is modelled as `Option String`, and a possibly
non-numeric vote payload as `Option ℚ` (`none` plays the role of a payload
whose `typeof` check fails).
-/

namespace PlanningPoker

structure Player where
  id : String
  name : String
  connected : Bool
deriving DecidableEq, Repr

structure Vote where
  playerId : String
  playerName : String
  vote : ℚ
deriving DecidableEq, Repr

inductive GamePhase where
  | waiting
  | voting
  | results
deriving DecidableEq, Repr

structure RoomState where
  players : List (String × Player)
  votes : List (String × Vote)
  gamePhase : GamePhase
  roomId : String
deriving DecidableEq, Repr

inductive ServerEvent where
  | gameStateUpdate (players : List Player) (gamePhase : GamePhase)
      (votes : Option (List (String × Vote)))
  | votingStarted
  | voteCountUpdate (votedCount totalPlayers : ℕ)
  | startCountdown
  | votingComplete (votes : List Vote) (average : ℚ)
deriving DecidableEq, Repr

/-- Model of `Map.set`: update the value in place when the key is present, append
a new entry otherwise (JS `Map` keeps insertion order on update). -/
def mapSet {α : Type} (k : String) (v : α) : List (String × α) → List (String × α)
  | [] => [(k, v)]
  | (k', v') :: rest => if k' = k then (k, v) :: rest else (k', v') :: mapSet k v rest

/-- Model of `Map.get`: the value stored under `k`, if any. -/
def mapGet {α : Type} (k : String) : List (String × α) → Option α
  | [] => none
  | (k', v) :: rest => if k' = k then some v else mapGet k rest

/-- Model of `Map.has`. -/
def mapHas {α : Type} (k : String) : List (String × α) → Bool
  | [] => false
  | (k', _) :: rest => if k' = k then true else mapHas k rest

/-- Model of `Map.delete`. -/
def mapDelete {α : Type} (k : String) (l : List (String × α)) : List (String × α) :=
  l.filter fun p => p.1 ≠ k

/-- Model of JS string trimming: strip leading and trailing whitespace. -/
def jsTrim (s : String) : String :=
  ⟨((s.data.dropWhile Char.isWhitespace).reverse.dropWhile Char.isWhitespace).reverse⟩

/-- The initial room state (`players`/`votes` empty, phase `waiting`,
`roomId` the hard-coded single room). -/
def initialRoomState : RoomState :=
  { players := [], votes := [], gamePhase := .waiting, roomId := "main-room" }

/-- The `broadcastGameState` / `broadcastRoomState` helper: the full-state snapshot
event, with the votes included only in the `results` phase. -/
def broadcastGameState (s : RoomState) : ServerEvent :=
  .gameStateUpdate (s.players.map Prod.snd) s.gamePhase
    (if s.gamePhase = .results then some s.votes else none)

/-- The `join-game` handler (identical in both server variants).  The guard
checks falsiness and then the payload type, so it rejects exactly a
non-string payload (`none`) and the empty string (falsy in JS); the name is
trimmed only after the guard passes. -/
def joinGame (s : RoomState) (socketId : String) (playerName : Option String) :
    RoomState × List ServerEvent :=
  match playerName with
  | none => (s, [])
  | some n =>
    if n = "" then (s, [])
    else
      let player : Player := ⟨socketId, jsTrim n, true⟩
      let s' := { s with players := mapSet socketId player s.players }
      (s', [broadcastGameState s'])

/-- The allowed deck of variant 1. -/
def deck1 : List ℚ := [1, 2, 3, 5, 10]

/-- The allowed deck of variant 2. -/
def deck2 : List ℚ := [1, 2, 3, 5, 8, 13, 21, 34, 55, 89]

/-- The `start-voting` handler of variant 1: requires at least two joined
players, otherwise a silent no-op (logging only). -/
def startVoting1 (s : RoomState) : RoomState × List ServerEvent :=
  if 2 ≤ s.players.length then
    let s' := { s with gamePhase := .voting, votes := [] }
    (s', [.votingStarted, broadcastGameState s'])
  else (s, [])

/-- The `start-voting` handler of variant 2: unconditional. -/
def startVoting2 (s : RoomState) : RoomState × List ServerEvent :=
  let s' := { s with gamePhase := .voting, votes := [] }
  (s', [.votingStarted, broadcastGameState s'])

/-- Model of `Math.round` on a rational: round half up. -/
def jsRound (x : ℚ) : ℤ := ⌊x + 1 / 2⌋

/-- The average formula of both variants, over rationals:
`Math.round((sum / votes.length) * 10) / 10` where `sum` folds the
`vote` fields of the collected votes. -/
def computeAverage (votes : List Vote) : ℚ :=
  (jsRound (((votes.map Vote.vote).sum / (votes.length : ℚ)) * 10) : ℚ) / 10

/-- The `submit-vote` handler of variant 1: deck guard, then phase and
membership guard, record/overwrite the vote, emit the progress event, and
complete the round synchronously when every current player has voted. -/
def submitVote1 (s : RoomState) (socketId : String) (vote : Option ℚ) :
    RoomState × List ServerEvent :=
  match vote with
  | none => (s, [])
  | some v =>
    if v ∈ deck1 then
      if s.gamePhase = .voting ∧ mapHas socketId s.players = true then
        match mapGet socketId s.players with
        | none => (s, [])
        | some player =>
          let voteData : Vote := ⟨socketId, player.name, v⟩
          let s1 := { s with votes := mapSet socketId voteData s.votes }
          let progress := ServerEvent.voteCountUpdate s1.votes.length s1.players.length
          if s1.votes.length = s1.players.length then
            let s2 := { s1 with gamePhase := .results }
            let resultVotes := s2.votes.map Prod.snd
            (s2, [progress, .votingComplete resultVotes (computeAverage resultVotes)])
          else (s1, [progress])
      else (s, [])
    else (s, [])

/-- The `submit-vote` handler of variant 2: same shape as variant 1 but
with the Fibonacci deck, and on completion it only emits the countdown
marker; the phase change and the result payload happen in the deferred
reveal callback. -/
def submitVote2 (s : RoomState) (socketId : String) (vote : Option ℚ) :
    RoomState × List ServerEvent :=
  match vote with
  | none => (s, [])
  | some v =>
    if v ∈ deck2 then
      if s.gamePhase = .voting ∧ mapHas socketId s.players = true then
        match mapGet socketId s.players with
        | none => (s, [])
        | some player =>
          let voteData : Vote := ⟨socketId, player.name, v⟩
          let s1 := { s with votes := mapSet socketId voteData s.votes }
          let progress := ServerEvent.voteCountUpdate s1.votes.length s1.players.length
          if s1.votes.length = s1.players.length then
            (s1, [progress, .startCountdown])
          else (s1, [progress])
      else (s, [])
    else (s, [])

/-- The deferred reveal callback of variant 2 (the `setTimeout` body): set
the phase to `results` and broadcast the result payload computed from the
votes as they stand when the callback fires. -/
def revealTimeout (s : RoomState) : RoomState × List ServerEvent :=
  let s' := { s with gamePhase := .results }
  let resultVotes := s'.votes.map Prod.snd
  (s', [.votingComplete resultVotes (computeAverage resultVotes)])

/-- The `next-round` handler (identical in both variants): unconditional. -/
def nextRound (s : RoomState) : RoomState × List ServerEvent :=
  let s' := { s with gamePhase := .waiting, votes := [] }
  (s', [broadcastGameState s'])

/-- The `disconnect` handler (identical in both variants): remove the
player and their vote, in the same step. -/
def disconnect (s : RoomState) (socketId : String) : RoomState × List ServerEvent :=
  if mapHas socketId s.players = true then
    let s' := { s with players := mapDelete socketId s.players,
                       votes := mapDelete socketId s.votes }
    (s', [broadcastGameState s'])
  else (s, [])

/-- The closed set of room operations. -/
inductive Op where
  | join (socketId : String) (name : Option String)
  | startVoting
  | submitVote (socketId : String) (value : Option ℚ)
  | nextRound
  | leave (socketId : String)
  | revealFire
deriving DecidableEq, Repr

/-- State-transition function of variant 1 (variant 1 never schedules a
deferred reveal, so `revealFire` is the identity there). -/
def applyOp1 (s : RoomState) : Op → RoomState
  | .join id n => (joinGame s id n).1
  | .startVoting => (startVoting1 s).1
  | .submitVote id v => (submitVote1 s id v).1
  | .nextRound => (nextRound s).1
  | .leave id => (disconnect s id).1
  | .revealFire => s

/-- State-transition function of variant 2. -/
def applyOp2 (s : RoomState) : Op → RoomState
  | .join id n => (joinGame s id n).1
  | .startVoting => (startVoting2 s).1
  | .submitVote id v => (submitVote2 s id v).1
  | .nextRound => (nextRound s).1
  | .leave id => (disconnect s id).1
  | .revealFire => (revealTimeout s).1

/-- Run a sequence of operations from the initial empty room, variant 1. -/
def runOps1 (ops : List Op) : RoomState := ops.foldl applyOp1 initialRoomState

/-- Run a sequence of operations from the initial empty room, variant 2. -/
def runOps2 (ops : List Op) : RoomState := ops.foldl applyOp2 initialRoomState

/-- Every key of the vote mapping is a key of the player mapping. -/
def votesSubset (s : RoomState) : Prop :=
  ∀ k, mapHas k s.votes = true → mapHas k s.players = true

/-- Whether an outbound event is the finalized result payload. -/
def isVotingComplete : ServerEvent → Bool
  | .votingComplete _ _ => true
  | _ => false

/-- Whether an outbound event is the countdown marker of variant 2. -/
def isStartCountdown : ServerEvent → Bool
  | .startCountdown => true
  | _ => false

/-- Whether an outbound event is the voting-started marker. -/
def isVotingStarted : ServerEvent → Bool
  | .votingStarted => true
  | _ => false

/-- Modelled from the spec: round a value to one decimal place, half up on
the tenths digit. -/
def specRoundOneDecimal (x : ℚ) : ℚ := (⌊x * 10 + 1 / 2⌋ : ℚ) / 10

/-- Modelled from the spec: the average is the sum of the recorded vote
values divided by the vote count, rounded to one decimal place. -/
def specAverage (values : List ℚ) : ℚ :=
  specRoundOneDecimal (values.sum / (values.length : ℚ))

/-- The phase edges the client-facing operations can take: either no
change, or start-voting entering `voting` from `waiting` or `results`, or
completion entering `results` from `voting`, or next-round entering
`waiting` from `voting` or `results`. -/
def clientPhaseEdge (p q : GamePhase) : Prop :=
  p = q ∨
  (p = .waiting ∧ q = .voting) ∨ (p = .results ∧ q = .voting) ∨
  (p = .voting ∧ q = .results) ∨
  (p = .voting ∧ q = .waiting) ∨ (p = .results ∧ q = .waiting)

/-- A one-player room in the voting phase where "a" has already voted 5:
used for concrete checks of re-voting. -/
def sampleRevoteState : RoomState :=
  { players := [("a", ⟨"a", "A", true⟩)], votes := [("a", ⟨"a", "A", 5⟩)],
    gamePhase := .voting, roomId := "main-room" }

/-- A two-player room in the voting phase where "a" has voted 5 and "b"
has not voted yet: used for concrete checks of completion. -/
def samplePendingState : RoomState :=
  { players := [("a", ⟨"a", "A", true⟩), ("b", ⟨"b", "B", true⟩)],
    votes := [("a", ⟨"a", "A", 5⟩)],
    gamePhase := .voting, roomId := "main-room" }

/-! ### Association-list lemmas -/

theorem mapHas_mapSet_self {α : Type} (k : String) (v : α) (l : List (String × α)) :
    mapHas k (mapSet k v l) = true := by
  induction l with
  | nil => simp [mapSet, mapHas]
  | cons a rest ih =>
    by_cases h : a.1 = k <;> simp [mapSet, mapHas, h, ih]

theorem mapHas_mapSet_ne {α : Type} {k k' : String} (hne : k' ≠ k) (v : α)
    (l : List (String × α)) : mapHas k' (mapSet k v l) = mapHas k' l := by
  induction l with
  | nil => simp [mapSet, mapHas, hne.symm]
  | cons a rest ih =>
    by_cases h : a.1 = k
    · subst h
      simp [mapSet, mapHas, hne.symm]
    · simp only [mapSet, if_neg h, mapHas]
      by_cases h' : a.1 = k' <;> simp [h', ih]

theorem length_mapSet_of_has {α : Type} {k : String} {l : List (String × α)}
    (h : mapHas k l = true) (v : α) : (mapSet k v l).length = l.length := by
  induction l with
  | nil => simp [mapHas] at h
  | cons a rest ih =>
    by_cases ha : a.1 = k
    · simp [mapSet, ha]
    · simp only [mapHas, if_neg ha] at h
      simp [mapSet, ha, ih h]

theorem mapGet_mapSet_self {α : Type} (k : String) (v : α) (l : List (String × α)) :
    mapGet k (mapSet k v l) = some v := by
  induction l with
  | nil => simp [mapSet, mapGet]
  | cons a rest ih =>
    by_cases h : a.1 = k <;> simp [mapSet, mapGet, h, ih]

theorem mapGet_mapSet_ne {α : Type} {k k' : String} (hne : k' ≠ k) (v : α)
    (l : List (String × α)) : mapGet k' (mapSet k v l) = mapGet k' l := by
  induction l with
  | nil => simp [mapSet, mapGet, hne.symm]
  | cons a rest ih =>
    by_cases h : a.1 = k
    · subst h
      simp [mapSet, mapGet, hne.symm]
    · simp only [mapSet, if_neg h, mapGet]
      by_cases h' : a.1 = k' <;> simp [h', ih]

theorem mapHas_of_mapGet_eq_some {α : Type} {k : String} {l : List (String × α)}
    {v : α} (h : mapGet k l = some v) : mapHas k l = true := by
  induction l with
  | nil => simp [mapGet] at h
  | cons a rest ih =>
    by_cases ha : a.1 = k
    · simp [mapHas, ha]
    · simp only [mapGet, if_neg ha] at h
      simp [mapHas, ha, ih h]

theorem mapGet_isSome_of_mapHas {α : Type} {k : String} {l : List (String × α)}
    (h : mapHas k l = true) : ∃ v, mapGet k l = some v := by
  induction l with
  | nil => simp [mapHas] at h
  | cons a rest ih =>
    by_cases ha : a.1 = k
    · exact ⟨a.2, by simp [mapGet, ha]⟩
    · simp only [mapHas, if_neg ha] at h
      obtain ⟨v, hv⟩ := ih h
      exact ⟨v, by simp [mapGet, ha, hv]⟩

theorem mapHas_mapDelete_self {α : Type} (k : String) (l : List (String × α)) :
    mapHas k (mapDelete k l) = false := by
  induction l with
  | nil => simp [mapDelete, mapHas]
  | cons a rest ih =>
    by_cases h : a.1 = k <;> simp [mapDelete, List.filter, mapHas, h] <;>
      simpa [mapDelete] using ih

theorem mapHas_of_mapHas_mapDelete {α : Type} {k k' : String} {l : List (String × α)}
    (h : mapHas k' (mapDelete k l) = true) : mapHas k' l = true := by
  induction l with
  | nil => simp [mapDelete, mapHas] at h
  | cons a rest ih =>
    by_cases ha : a.1 = k
    · simp only [mapDelete, List.filter, ha] at h
      simp only [decide_not, decide_True, Bool.not_true] at h
      by_cases ha' : a.1 = k'
      · simp [mapHas, ha']
      · simp only [mapHas, if_neg ha']
        exact ih (by simpa [mapDelete] using h)
    · simp only [mapDelete, List.filter, decide_not] at h
      by_cases ha' : a.1 = k'
      · simp [mapHas, ha']
      · simp only [ha, decide_False, Bool.not_false, mapHas, if_neg ha'] at h ⊢
        exact ih (by simpa [mapDelete] using h)

theorem mapHas_mapSet_of_mapHas {α : Type} {k' : String} {l : List (String × α)}
    (h : mapHas k' l = true) (k : String) (v : α) :
    mapHas k' (mapSet k v l) = true := by
  by_cases hk : k' = k
  · subst hk
    exact mapHas_mapSet_self k' v l
  · rw [mapHas_mapSet_ne hk]
    exact h

theorem mapHas_mapSet_cases {α : Type} {k k' : String} {l : List (String × α)}
    {v : α} (h : mapHas k' (mapSet k v l) = true) :
    k' = k ∨ mapHas k' l = true := by
  by_cases hk : k' = k
  · exact Or.inl hk
  · rw [mapHas_mapSet_ne hk] at h
    exact Or.inr h

theorem mapHas_mapDelete_iff {α : Type} {k k' : String} {l : List (String × α)} :
    mapHas k' (mapDelete k l) = true ↔ k' ≠ k ∧ mapHas k' l = true := by
  induction l with
  | nil => simp [mapDelete, mapHas]
  | cons a rest ih =>
    by_cases ha : a.1 = k
    · rw [show mapDelete k (a :: rest) = mapDelete k rest by
        simp [mapDelete, List.filter_cons, ha]]
      rw [ih]
      constructor
      · rintro ⟨hne, hrest⟩
        refine ⟨hne, ?_⟩
        simp only [mapHas]
        by_cases ha' : a.1 = k' <;> simp [ha', hrest]
      · rintro ⟨hne, hcons⟩
        refine ⟨hne, ?_⟩
        simp only [mapHas] at hcons
        by_cases ha' : a.1 = k'
        · exact absurd (ha'.symm.trans ha) hne
        · simpa [ha'] using hcons
    · rw [show mapDelete k (a :: rest) = a :: mapDelete k rest by
        simp [mapDelete, List.filter_cons, ha]]
      by_cases ha' : a.1 = k'
      · simp [mapHas, ha']
        exact fun hkk => ha (hkk ▸ ha')
      · simp only [mapHas, if_neg ha']
        exact ih

theorem mem_map_snd_of_mapGet {α : Type} {k : String} {l : List (String × α)}
    {v : α} (h : mapGet k l = some v) : v ∈ l.map Prod.snd := by
  induction l with
  | nil => simp [mapGet] at h
  | cons a rest ih =>
    by_cases ha : a.1 = k
    · simp only [mapGet, if_pos ha, Option.some.injEq] at h
      simp [← h]
    · simp only [mapGet, if_neg ha] at h
      simp [ih h]

/-! ### Handler characterisation lemmas -/

theorem joinGame_votes (s : RoomState) (id : String) (n : Option String) :
    (joinGame s id n).1.votes = s.votes := by
  rcases n with _ | m
  · rfl
  · by_cases h : m = "" <;> simp [joinGame, h]

theorem joinGame_gamePhase (s : RoomState) (id : String) (n : Option String) :
    (joinGame s id n).1.gamePhase = s.gamePhase := by
  rcases n with _ | m
  · rfl
  · by_cases h : m = "" <;> simp [joinGame, h]

theorem joinGame_players (s : RoomState) (id : String) (n : Option String) :
    (joinGame s id n).1.players = s.players ∨
    ∃ p : Player, (joinGame s id n).1.players = mapSet id p s.players := by
  rcases n with _ | m
  · exact Or.inl rfl
  · by_cases h : m = ""
    · simp [joinGame, h]
    · exact Or.inr ⟨⟨id, jsTrim m, true⟩, by simp [joinGame, h]⟩

theorem submitVote1_none (s : RoomState) (id : String) :
    submitVote1 s id none = (s, []) := rfl

theorem submitVote2_none (s : RoomState) (id : String) :
    submitVote2 s id none = (s, []) := rfl

theorem submitVote1_not_in_deck (s : RoomState) (id : String) {q : ℚ}
    (hq : q ∉ deck1) : submitVote1 s id (some q) = (s, []) := by
  simp [submitVote1, hq]

theorem submitVote2_not_in_deck (s : RoomState) (id : String) {q : ℚ}
    (hq : q ∉ deck2) : submitVote2 s id (some q) = (s, []) := by
  simp [submitVote2, hq]

theorem submitVote1_bad_guard (s : RoomState) (id : String) (q : ℚ)
    (h : ¬(s.gamePhase = .voting ∧ mapHas id s.players = true)) :
    submitVote1 s id (some q) = (s, []) := by
  by_cases hq : q ∈ deck1
  · simp only [submitVote1, if_pos hq, if_neg h]
  · simp [submitVote1, hq]

theorem submitVote2_bad_guard (s : RoomState) (id : String) (q : ℚ)
    (h : ¬(s.gamePhase = .voting ∧ mapHas id s.players = true)) :
    submitVote2 s id (some q) = (s, []) := by
  by_cases hq : q ∈ deck2
  · simp only [submitVote2, if_pos hq, if_neg h]
  · simp [submitVote2, hq]

theorem submitVote1_valid (s : RoomState) (id : String) (q : ℚ) (player : Player)
    (hq : q ∈ deck1) (hphase : s.gamePhase = .voting)
    (hget : mapGet id s.players = some player) :
    submitVote1 s id (some q) =
      if (mapSet id ⟨id, player.name, q⟩ s.votes).length = s.players.length then
        ({ s with votes := mapSet id ⟨id, player.name, q⟩ s.votes, gamePhase := .results },
         [ServerEvent.voteCountUpdate (mapSet id ⟨id, player.name, q⟩ s.votes).length
            s.players.length,
          .votingComplete ((mapSet id ⟨id, player.name, q⟩ s.votes).map Prod.snd)
            (computeAverage ((mapSet id ⟨id, player.name, q⟩ s.votes).map Prod.snd))])
      else
        ({ s with votes := mapSet id ⟨id, player.name, q⟩ s.votes },
         [ServerEvent.voteCountUpdate (mapSet id ⟨id, player.name, q⟩ s.votes).length
            s.players.length]) := by
  have hhas := mapHas_of_mapGet_eq_some hget
  simp only [submitVote1, if_pos hq, if_pos (And.intro hphase hhas), hget]

theorem submitVote2_valid (s : RoomState) (id : String) (q : ℚ) (player : Player)
    (hq : q ∈ deck2) (hphase : s.gamePhase = .voting)
    (hget : mapGet id s.players = some player) :
    submitVote2 s id (some q) =
      if (mapSet id ⟨id, player.name, q⟩ s.votes).length = s.players.length then
        ({ s with votes := mapSet id ⟨id, player.name, q⟩ s.votes },
         [ServerEvent.voteCountUpdate (mapSet id ⟨id, player.name, q⟩ s.votes).length
            s.players.length,
          .startCountdown])
      else
        ({ s with votes := mapSet id ⟨id, player.name, q⟩ s.votes },
         [ServerEvent.voteCountUpdate (mapSet id ⟨id, player.name, q⟩ s.votes).length
            s.players.length]) := by
  have hhas := mapHas_of_mapGet_eq_some hget
  simp only [submitVote2, if_pos hq, if_pos (And.intro hphase hhas), hget]

theorem submitVote1_cases (s : RoomState) (id : String) (v : Option ℚ) :
    submitVote1 s id v = (s, []) ∨
    ∃ (q : ℚ) (player : Player), v = some q ∧ q ∈ deck1 ∧ s.gamePhase = .voting ∧
      mapGet id s.players = some player := by
  rcases v with _ | q
  · exact Or.inl rfl
  · by_cases hq : q ∈ deck1
    · by_cases hg : s.gamePhase = .voting ∧ mapHas id s.players = true
      · obtain ⟨player, hget⟩ := mapGet_isSome_of_mapHas hg.2
        exact Or.inr ⟨q, player, rfl, hq, hg.1, hget⟩
      · exact Or.inl (submitVote1_bad_guard s id q hg)
    · exact Or.inl (submitVote1_not_in_deck s id hq)

theorem submitVote2_cases (s : RoomState) (id : String) (v : Option ℚ) :
    submitVote2 s id v = (s, []) ∨
    ∃ (q : ℚ) (player : Player), v = some q ∧ q ∈ deck2 ∧ s.gamePhase = .voting ∧
      mapGet id s.players = some player := by
  rcases v with _ | q
  · exact Or.inl rfl
  · by_cases hq : q ∈ deck2
    · by_cases hg : s.gamePhase = .voting ∧ mapHas id s.players = true
      · obtain ⟨player, hget⟩ := mapGet_isSome_of_mapHas hg.2
        exact Or.inr ⟨q, player, rfl, hq, hg.1, hget⟩
      · exact Or.inl (submitVote2_bad_guard s id q hg)
    · exact Or.inl (submitVote2_not_in_deck s id hq)

theorem submitVote1_players (s : RoomState) (id : String) (v : Option ℚ) :
    (submitVote1 s id v).1.players = s.players := by
  rcases submitVote1_cases s id v with h | ⟨q, player, hv, hq, hphase, hget⟩
  · rw [h]
  · subst hv
    rw [submitVote1_valid s id q player hq hphase hget]
    split <;> rfl

theorem submitVote2_players (s : RoomState) (id : String) (v : Option ℚ) :
    (submitVote2 s id v).1.players = s.players := by
  rcases submitVote2_cases s id v with h | ⟨q, player, hv, hq, hphase, hget⟩
  · rw [h]
  · subst hv
    rw [submitVote2_valid s id q player hq hphase hget]
    split <;> rfl

theorem submitVote2_gamePhase (s : RoomState) (id : String) (v : Option ℚ) :
    (submitVote2 s id v).1.gamePhase = s.gamePhase := by
  rcases submitVote2_cases s id v with h | ⟨q, player, hv, hq, hphase, hget⟩
  · rw [h]
  · subst hv
    rw [submitVote2_valid s id q player hq hphase hget]
    split <;> rfl

theorem submitVote1_gamePhase (s : RoomState) (id : String) (v : Option ℚ) :
    (submitVote1 s id v).1.gamePhase = s.gamePhase ∨
    (s.gamePhase = .voting ∧ (submitVote1 s id v).1.gamePhase = .results) := by
  rcases submitVote1_cases s id v with h | ⟨q, player, hv, hq, hphase, hget⟩
  · rw [h]
    exact Or.inl rfl
  · subst hv
    rw [submitVote1_valid s id q player hq hphase hget]
    split
    · exact Or.inr ⟨hphase, rfl⟩
    · exact Or.inl rfl

theorem submitVote1_votes (s : RoomState) (id : String) (v : Option ℚ) :
    (submitVote1 s id v).1.votes = s.votes ∨
    (mapHas id s.players = true ∧
      ∃ vd : Vote, (submitVote1 s id v).1.votes = mapSet id vd s.votes) := by
  rcases submitVote1_cases s id v with h | ⟨q, player, hv, hq, hphase, hget⟩
  · rw [h]
    exact Or.inl rfl
  · subst hv
    refine Or.inr ⟨mapHas_of_mapGet_eq_some hget, ⟨id, player.name, q⟩, ?_⟩
    rw [submitVote1_valid s id q player hq hphase hget]
    split <;> rfl

theorem submitVote2_votes (s : RoomState) (id : String) (v : Option ℚ) :
    (submitVote2 s id v).1.votes = s.votes ∨
    (mapHas id s.players = true ∧
      ∃ vd : Vote, (submitVote2 s id v).1.votes = mapSet id vd s.votes) := by
  rcases submitVote2_cases s id v with h | ⟨q, player, hv, hq, hphase, hget⟩
  · rw [h]
    exact Or.inl rfl
  · subst hv
    refine Or.inr ⟨mapHas_of_mapGet_eq_some hget, ⟨id, player.name, q⟩, ?_⟩
    rw [submitVote2_valid s id q player hq hphase hget]
    split <;> rfl

theorem startVoting1_cases (s : RoomState) :
    (2 ≤ s.players.length ∧ startVoting1 s =
       ({ s with gamePhase := .voting, votes := [] },
        [.votingStarted,
         broadcastGameState { s with gamePhase := .voting, votes := [] }])) ∨
    (s.players.length < 2 ∧ startVoting1 s = (s, [])) := by
  by_cases h : 2 ≤ s.players.length
  · exact Or.inl ⟨h, by simp [startVoting1, h]⟩
  · exact Or.inr ⟨Nat.lt_of_not_le h, by simp [startVoting1, h]⟩

theorem disconnect_cases (s : RoomState) (id : String) :
    (mapHas id s.players = true ∧
      (disconnect s id).1 = { s with players := mapDelete id s.players,
                                     votes := mapDelete id s.votes }) ∨
    (mapHas id s.players = false ∧ disconnect s id = (s, [])) := by
  by_cases h : mapHas id s.players = true
  · exact Or.inl ⟨h, by simp [disconnect, h]⟩
  · refine Or.inr ⟨by simpa using h, by simp [disconnect, h]⟩

theorem disconnect_gamePhase (s : RoomState) (id : String) :
    (disconnect s id).1.gamePhase = s.gamePhase := by
  rcases disconnect_cases s id with ⟨_, h⟩ | ⟨_, h⟩
  · rw [h]
  · rw [h]

theorem disconnect_events (s : RoomState) (id : String) :
    (disconnect s id).2.any isVotingComplete = false ∧
    (disconnect s id).2.any isStartCountdown = false := by
  unfold disconnect
  split
  · simp [broadcastGameState, isVotingComplete, isStartCountdown]
  · simp

theorem length_pos_of_mapHas {α : Type} {k : String} {l : List (String × α)}
    (h : mapHas k l = true) : 0 < l.length := by
  cases l with
  | nil => simp [mapHas] at h
  | cons a rest => simp

theorem clientPhaseEdge_refl (p : GamePhase) : clientPhaseEdge p p := Or.inl rfl

theorem clientPhaseEdge_to_voting (p : GamePhase) : clientPhaseEdge p .voting := by
  cases p
  · exact Or.inr (Or.inl ⟨rfl, rfl⟩)
  · exact Or.inl rfl
  · exact Or.inr (Or.inr (Or.inl ⟨rfl, rfl⟩))

theorem clientPhaseEdge_to_waiting (p : GamePhase) : clientPhaseEdge p .waiting := by
  cases p
  · exact Or.inl rfl
  · exact Or.inr (Or.inr (Or.inr (Or.inr (Or.inl ⟨rfl, rfl⟩))))
  · exact Or.inr (Or.inr (Or.inr (Or.inr (Or.inr ⟨rfl, rfl⟩))))

theorem votesSubset_initial : votesSubset initialRoomState := by
  intro k hk
  simp [initialRoomState, mapHas] at hk

theorem votesSubset_applyOp1 {s : RoomState} (h : votesSubset s) (op : Op) :
    votesSubset (applyOp1 s op) := by
  cases op with
  | join id n =>
    intro k hk
    rw [show (applyOp1 s (.join id n)).votes = s.votes from joinGame_votes s id n] at hk
    rcases joinGame_players s id n with hp | ⟨p, hp⟩
    · rw [show (applyOp1 s (.join id n)).players = s.players from hp]
      exact h k hk
    · rw [show (applyOp1 s (.join id n)).players = mapSet id p s.players from hp]
      exact mapHas_mapSet_of_mapHas (h k hk) id p
  | startVoting =>
    intro k hk
    rcases startVoting1_cases s with ⟨_, he⟩ | ⟨_, he⟩
    · rw [show applyOp1 s .startVoting = (startVoting1 s).1 from rfl, he] at hk
      simp [mapHas] at hk
    · rw [show applyOp1 s .startVoting = (startVoting1 s).1 from rfl, he] at hk ⊢
      exact h k hk
  | submitVote id v =>
    intro k hk
    rw [show (applyOp1 s (.submitVote id v)).players = s.players from
      submitVote1_players s id v]
    rcases submitVote1_votes s id v with hv | ⟨hhas, vd, hv⟩
    · rw [show (applyOp1 s (.submitVote id v)).votes = s.votes from hv] at hk
      exact h k hk
    · rw [show (applyOp1 s (.submitVote id v)).votes = mapSet id vd s.votes from hv] at hk
      rcases mapHas_mapSet_cases hk with rfl | hk'
      · exact hhas
      · exact h k hk'
  | nextRound =>
    intro k hk
    simp [applyOp1, nextRound, mapHas] at hk
  | leave id =>
    intro k hk
    rcases disconnect_cases s id with ⟨_, he⟩ | ⟨_, he⟩
    · rw [show applyOp1 s (.leave id) = (disconnect s id).1 from rfl, he] at hk ⊢
      obtain ⟨hne, hk'⟩ := mapHas_mapDelete_iff.mp hk
      exact mapHas_mapDelete_iff.mpr ⟨hne, h k hk'⟩
    · rw [show applyOp1 s (.leave id) = (disconnect s id).1 from rfl, he] at hk ⊢
      exact h k hk
  | revealFire => exact h

theorem votesSubset_applyOp2 {s : RoomState} (h : votesSubset s) (op : Op) :
    votesSubset (applyOp2 s op) := by
  cases op with
  | join id n =>
    intro k hk
    rw [show (applyOp2 s (.join id n)).votes = s.votes from joinGame_votes s id n] at hk
    rcases joinGame_players s id n with hp | ⟨p, hp⟩
    · rw [show (applyOp2 s (.join id n)).players = s.players from hp]
      exact h k hk
    · rw [show (applyOp2 s (.join id n)).players = mapSet id p s.players from hp]
      exact mapHas_mapSet_of_mapHas (h k hk) id p
  | startVoting =>
    intro k hk
    simp [applyOp2, startVoting2, mapHas] at hk
  | submitVote id v =>
    intro k hk
    rw [show (applyOp2 s (.submitVote id v)).players = s.players from
      submitVote2_players s id v]
    rcases submitVote2_votes s id v with hv | ⟨hhas, vd, hv⟩
    · rw [show (applyOp2 s (.submitVote id v)).votes = s.votes from hv] at hk
      exact h k hk
    · rw [show (applyOp2 s (.submitVote id v)).votes = mapSet id vd s.votes from hv] at hk
      rcases mapHas_mapSet_cases hk with rfl | hk'
      · exact hhas
      · exact h k hk'
  | nextRound =>
    intro k hk
    simp [applyOp2, nextRound, mapHas] at hk
  | leave id =>
    intro k hk
    rcases disconnect_cases s id with ⟨_, he⟩ | ⟨_, he⟩
    · rw [show applyOp2 s (.leave id) = (disconnect s id).1 from rfl, he] at hk ⊢
      obtain ⟨hne, hk'⟩ := mapHas_mapDelete_iff.mp hk
      exact mapHas_mapDelete_iff.mpr ⟨hne, h k hk'⟩
    · rw [show applyOp2 s (.leave id) = (disconnect s id).1 from rfl, he] at hk ⊢
      exact h k hk
  | revealFire => exact h

theorem votesSubset_foldl1 (ops : List Op) :
    ∀ s : RoomState, votesSubset s → votesSubset (ops.foldl applyOp1 s) := by
  induction ops with
  | nil => exact fun s h => h
  | cons op rest ih => exact fun s h => ih _ (votesSubset_applyOp1 h op)

theorem votesSubset_foldl2 (ops : List Op) :
    ∀ s : RoomState, votesSubset s → votesSubset (ops.foldl applyOp2 s) := by
  induction ops with
  | nil => exact fun s h => h
  | cons op rest ih => exact fun s h => ih _ (votesSubset_applyOp2 h op)

theorem disconnect_purges {s : RoomState} (hs : votesSubset s) (id : String) :
    mapHas id ((disconnect s id).1).votes = false ∧
    mapHas id ((disconnect s id).1).players = false := by
  rcases disconnect_cases s id with ⟨_, he⟩ | ⟨hhas, he⟩
  · rw [he]
    exact ⟨mapHas_mapDelete_self id s.votes, mapHas_mapDelete_self id s.players⟩
  · rw [he]
    refine ⟨?_, hhas⟩
    cases hv : mapHas id s.votes
    · rfl
    · rw [hs id hv] at hhas
      exact absurd hhas (by simp)

/-! ### Claim theorems -/

/-- C4: a `submit-vote` whose payload is not a number, or whose value is
not in the configured deck, is a silent no-op in both variants: the
returned state is the old state unchanged (same votes, players and phase,
hence the same `votedCount`) and no event is emitted. -/
theorem claim_C4_out_of_deck_vote_is_noop :
    ∀ (s : RoomState) (id : String),
      submitVote1 s id none = (s, []) ∧ submitVote2 s id none = (s, []) ∧
      ∀ v : ℚ, (v ∉ deck1 → submitVote1 s id (some v) = (s, [])) ∧
        (v ∉ deck2 → submitVote2 s id (some v) = (s, [])) :=
  fun s id =>
    ⟨submitVote1_none s id, submitVote2_none s id,
     fun _ => ⟨fun hv => submitVote1_not_in_deck s id hv,
               fun hv => submitVote2_not_in_deck s id hv⟩⟩

/-- Witness for C4: the value 4 is in neither deck, and submitting it to
the initial room changes nothing. -/
theorem claim_C4_witness :
    (4 : ℚ) ∉ deck1 ∧ (4 : ℚ) ∉ deck2 ∧
    submitVote1 initialRoomState "a" (some 4) = (initialRoomState, []) ∧
    submitVote2 initialRoomState "a" (some 4) = (initialRoomState, []) :=
  ⟨by decide, by decide,
   ((claim_C4_out_of_deck_vote_is_noop initialRoomState "a").2.2 4).1 (by decide),
   ((claim_C4_out_of_deck_vote_is_noop initialRoomState "a").2.2 4).2 (by decide)⟩

/-- C9: in variant 1 (the variant with the two-player minimum),
`start-voting` with fewer than two joined players is a silent no-op:
the state (phase, votes) is unchanged and no event at all is emitted, in
particular no voting-started marker. -/
theorem claim_C9_start_voting_needs_two_players :
    ∀ s : RoomState, s.players.length < 2 → startVoting1 s = (s, []) := by
  intro s h
  rcases startVoting1_cases s with ⟨h2, _⟩ | ⟨_, he⟩
  · exact absurd h2 (Nat.not_le.mpr h)
  · exact he

/-- Witness for C9: a one-player room in the `results` phase is left
untouched by `start-voting`. -/
theorem claim_C9_witness :
    ({ players := [("a", ⟨"a", "A", true⟩)], votes := [],
       gamePhase := .results, roomId := "main-room" } : RoomState).players.length < 2 ∧
    startVoting1 ({ players := [("a", ⟨"a", "A", true⟩)], votes := [],
                    gamePhase := .results, roomId := "main-room" } : RoomState) =
      (({ players := [("a", ⟨"a", "A", true⟩)], votes := [],
          gamePhase := .results, roomId := "main-room" } : RoomState), []) :=
  ⟨by decide,
   claim_C9_start_voting_needs_two_players
     ({ players := [("a", ⟨"a", "A", true⟩)], votes := [],
        gamePhase := .results, roomId := "main-room" } : RoomState) (by decide)⟩

/-- C10: `join-game` never modifies the vote mapping or the phase: after
any join (including a re-join of an existing participant under a new
name), the vote mapping is exactly as before, so a previously recorded
vote is still present under the same key with the same name snapshot, and
the vote count is unchanged. -/
theorem claim_C10_join_preserves_votes_and_phase :
    ∀ (s : RoomState) (id : String) (n : Option String),
      (joinGame s id n).1.votes = s.votes ∧
      (joinGame s id n).1.gamePhase = s.gamePhase ∧
      mapGet id (joinGame s id n).1.votes = mapGet id s.votes ∧
      (joinGame s id n).1.votes.length = s.votes.length :=
  fun s id n =>
    ⟨joinGame_votes s id n, joinGame_gamePhase s id n,
     by rw [joinGame_votes], by rw [joinGame_votes]⟩

/-- C5 counterexample: a join whose name is the whitespace-only string
`" "` (empty after trimming) is NOT ignored: it inserts a participant into
the initially empty room. -/
theorem claim_C5_counterexample :
    mapHas "s1" (joinGame initialRoomState "s1" (some " ")).1.players = true ∧
    (joinGame initialRoomState "s1" (some " ")).1 ≠ initialRoomState := by
  constructor
  · decide
  · decide

/-- C5 amended: only a join whose name is not a string (`none`) or is the
empty string is silently ignored; any non-empty name — including a
whitespace-only one — passes the guard and inserts/overwrites the
participant with the trimmed name (possibly empty), leaving phase and
votes unchanged. -/
theorem claim_C5_amended_join_guard :
    ∀ (s : RoomState) (id : String),
      joinGame s id none = (s, []) ∧
      joinGame s id (some "") = (s, []) ∧
      ∀ n : String, n ≠ "" →
        (joinGame s id (some n)).1.players = mapSet id ⟨id, jsTrim n, true⟩ s.players ∧
        (joinGame s id (some n)).1.votes = s.votes ∧
        (joinGame s id (some n)).1.gamePhase = s.gamePhase := by
  intro s id
  refine ⟨rfl, by simp [joinGame], fun n hn => ?_⟩
  simp [joinGame, hn]

/-- Witness for the amended C5: the whitespace-only name `" "` is nonempty
as a string, and joining the empty room with it stores a participant whose
name is the empty string. -/
theorem claim_C5_amended_witness :
    (" " : String) ≠ "" ∧
    (joinGame initialRoomState "s1" (some " ")).1.players =
      mapSet "s1" ⟨"s1", jsTrim " ", true⟩ initialRoomState.players ∧
    (joinGame initialRoomState "s1" (some " ")).1.votes = initialRoomState.votes ∧
    (joinGame initialRoomState "s1" (some " ")).1.gamePhase =
      initialRoomState.gamePhase :=
  ⟨by decide,
   ((claim_C5_amended_join_guard initialRoomState "s1").2.2 " " (by decide)).1,
   ((claim_C5_amended_join_guard initialRoomState "s1").2.2 " " (by decide)).2.1,
   ((claim_C5_amended_join_guard initialRoomState "s1").2.2 " " (by decide)).2.2⟩

/-- C3: the average broadcast with the results is the sum of the recorded
vote values divided by the vote count, rounded to one decimal place with
round-half-up on the tenths digit; votes {3,5,8} give 5.3, votes {2,2}
give 2.0, and the tie case {1,1,1,2} (mean 1.25) rounds up to 1.3. -/
theorem claim_C3_average_is_rounded_mean :
    (∀ votes : List Vote, votes ≠ [] →
      computeAverage votes = specAverage (votes.map Vote.vote)) ∧
    computeAverage [⟨"a", "A", 3⟩, ⟨"b", "B", 5⟩, ⟨"c", "C", 8⟩] = 53 / 10 ∧
    computeAverage [⟨"a", "A", 2⟩, ⟨"b", "B", 2⟩] = 2 ∧
    computeAverage [⟨"a", "A", 1⟩, ⟨"b", "B", 1⟩, ⟨"c", "C", 1⟩, ⟨"d", "D", 2⟩]
      = 13 / 10 := by
  refine ⟨fun votes _ => ?_, ?_, ?_, ?_⟩
  · simp [computeAverage, specAverage, specRoundOneDecimal, jsRound, List.length_map]
  · norm_num [computeAverage, jsRound]
  · norm_num [computeAverage, jsRound]
  · norm_num [computeAverage, jsRound]

/-- Witness for C3: the nonemptiness hypothesis discharged on the concrete
vote multiset {3,5,8}. -/
theorem claim_C3_witness :
    ([⟨"a", "A", 3⟩, ⟨"b", "B", 5⟩, ⟨"c", "C", 8⟩] : List Vote) ≠ [] ∧
    computeAverage [⟨"a", "A", 3⟩, ⟨"b", "B", 5⟩, ⟨"c", "C", 8⟩] =
      specAverage (([⟨"a", "A", 3⟩, ⟨"b", "B", 5⟩, ⟨"c", "C", 8⟩] :
        List Vote).map Vote.vote) :=
  ⟨by simp, claim_C3_average_is_rounded_mean.1 _ (by simp)⟩

/-- C8: during the voting phase, a second valid vote by a participant who
already has a recorded vote overwrites the prior value (the stored vote
becomes the new value with the current name snapshot) and leaves the size
of the vote mapping — `votedCount` — unchanged, in both variants. -/
theorem claim_C8_revote_overwrites_without_double_count :
    ∀ (s : RoomState) (id : String) (v : ℚ) (player : Player) (old : Vote),
      s.gamePhase = .voting → mapGet id s.players = some player →
      mapGet id s.votes = some old →
      (v ∈ deck1 →
        mapGet id (submitVote1 s id (some v)).1.votes = some ⟨id, player.name, v⟩ ∧
        (submitVote1 s id (some v)).1.votes.length = s.votes.length) ∧
      (v ∈ deck2 →
        mapGet id (submitVote2 s id (some v)).1.votes = some ⟨id, player.name, v⟩ ∧
        (submitVote2 s id (some v)).1.votes.length = s.votes.length) := by
  intro s id v player old hphase hget hvote
  have hvhas : mapHas id s.votes = true := mapHas_of_mapGet_eq_some hvote
  constructor
  · intro hv
    rw [submitVote1_valid s id v player hv hphase hget]
    constructor
    · split <;> exact mapGet_mapSet_self id ⟨id, player.name, v⟩ s.votes
    · split <;> exact length_mapSet_of_has hvhas ⟨id, player.name, v⟩
  · intro hv
    rw [submitVote2_valid s id v player hv hphase hget]
    constructor
    · split <;> exact mapGet_mapSet_self id ⟨id, player.name, v⟩ s.votes
    · split <;> exact length_mapSet_of_has hvhas ⟨id, player.name, v⟩

/-- Witness for C8: in the one-player room where "a" already voted 5,
re-voting 3 stores 3 under the same key and keeps the vote count at 1. -/
theorem claim_C8_witness :
    sampleRevoteState.gamePhase = .voting ∧
    mapGet "a" sampleRevoteState.players = some ⟨"a", "A", true⟩ ∧
    mapGet "a" sampleRevoteState.votes = some ⟨"a", "A", 5⟩ ∧
    (3 : ℚ) ∈ deck1 ∧
    mapGet "a" (submitVote1 sampleRevoteState "a" (some 3)).1.votes =
      some ⟨"a", "A", 3⟩ ∧
    (submitVote1 sampleRevoteState "a" (some 3)).1.votes.length =
      sampleRevoteState.votes.length :=
  ⟨by decide, by decide, by decide, by decide,
   ((claim_C8_revote_overwrites_without_double_count sampleRevoteState "a" 3
       ⟨"a", "A", true⟩ ⟨"a", "A", 5⟩ (by decide) (by decide) (by decide)).1
     (by decide)).1,
   ((claim_C8_revote_overwrites_without_double_count sampleRevoteState "a" 3
       ⟨"a", "A", true⟩ ⟨"a", "A", 5⟩ (by decide) (by decide) (by decide)).1
     (by decide)).2⟩

/-- C2: for a valid submit-vote (phase `voting`, sender a current player,
value in the deck) the round completes iff, right after recording the
vote, the vote count equals the (positive) player count — in variant 1
completion is the synchronous transition to `results` plus the result
broadcast, in variant 2 it is emitting the countdown marker that schedules
the reveal; and a disconnect (Leave) never completes a round: it keeps the
phase and broadcasts neither a result payload nor a countdown. -/
theorem claim_C2_completion_iff_all_voted :
    (∀ (s : RoomState) (id : String) (v : ℚ) (player : Player),
      s.gamePhase = .voting → mapGet id s.players = some player →
      (v ∈ deck1 →
        (((submitVote1 s id (some v)).1.gamePhase = .results ∧
          (submitVote1 s id (some v)).2.any isVotingComplete = true) ↔
         ((submitVote1 s id (some v)).1.votes.length =
            (submitVote1 s id (some v)).1.players.length ∧
          0 < (submitVote1 s id (some v)).1.players.length))) ∧
      (v ∈ deck2 →
        ((submitVote2 s id (some v)).2.any isStartCountdown = true ↔
         ((submitVote2 s id (some v)).1.votes.length =
            (submitVote2 s id (some v)).1.players.length ∧
          0 < (submitVote2 s id (some v)).1.players.length)))) ∧
    (∀ (s : RoomState) (id : String),
      (disconnect s id).1.gamePhase = s.gamePhase ∧
      (disconnect s id).2.any isVotingComplete = false ∧
      (disconnect s id).2.any isStartCountdown = false) := by
  constructor
  · intro s id v player hphase hget
    have hpos : 0 < s.players.length :=
      length_pos_of_mapHas (mapHas_of_mapGet_eq_some hget)
    constructor
    · intro hv
      rw [submitVote1_valid s id v player hv hphase hget]
      by_cases hlen : (mapSet id ⟨id, player.name, v⟩ s.votes).length = s.players.length
      · rw [if_pos hlen]
        simp [isVotingComplete, hlen, hpos]
      · rw [if_neg hlen]
        simp [isVotingComplete, hphase, hlen]
    · intro hv
      rw [submitVote2_valid s id v player hv hphase hget]
      by_cases hlen : (mapSet id ⟨id, player.name, v⟩ s.votes).length = s.players.length
      · rw [if_pos hlen]
        simp [isStartCountdown, hlen, hpos]
      · rw [if_neg hlen]
        simp [isStartCountdown, hlen]
  · intro s id
    exact ⟨disconnect_gamePhase s id, (disconnect_events s id).1,
      (disconnect_events s id).2⟩

/-- Witness for C2: in the two-player room where only "a" has voted, a
valid vote by "b" makes the completion equivalence concrete. -/
theorem claim_C2_witness :
    samplePendingState.gamePhase = .voting ∧
    mapGet "b" samplePendingState.players = some ⟨"b", "B", true⟩ ∧
    (5 : ℚ) ∈ deck1 ∧
    (((submitVote1 samplePendingState "b" (some 5)).1.gamePhase = .results ∧
      (submitVote1 samplePendingState "b" (some 5)).2.any isVotingComplete = true) ↔
     ((submitVote1 samplePendingState "b" (some 5)).1.votes.length =
        (submitVote1 samplePendingState "b" (some 5)).1.players.length ∧
      0 < (submitVote1 samplePendingState "b" (some 5)).1.players.length)) :=
  ⟨by decide, by decide, by decide,
   (claim_C2_completion_iff_all_voted.1 samplePendingState "b" 5 ⟨"b", "B", true⟩
      (by decide) (by decide)).1 (by decide)⟩

/-- C7: in the deferred-reveal variant, submitting a vote never changes
the phase (so it remains `voting` during the countdown delay), and a valid
vote cast by a player who had not yet voted is recorded and is included in
the votes and the average of the payload the deferred callback broadcasts
when it fires on the then-current vote mapping. -/
theorem claim_C7_deferred_reveal_includes_late_vote :
    (∀ (s : RoomState) (id : String) (v : Option ℚ),
      (submitVote2 s id v).1.gamePhase = s.gamePhase) ∧
    ∀ (s : RoomState) (id : String) (v : ℚ) (player : Player),
      s.gamePhase = .voting → mapGet id s.players = some player →
      mapHas id s.votes = false → v ∈ deck2 →
      mapGet id (submitVote2 s id (some v)).1.votes = some ⟨id, player.name, v⟩ ∧
      (submitVote2 s id (some v)).1.gamePhase = .voting ∧
      (revealTimeout (submitVote2 s id (some v)).1).1.gamePhase = .results ∧
      (revealTimeout (submitVote2 s id (some v)).1).2 =
        [.votingComplete ((submitVote2 s id (some v)).1.votes.map Prod.snd)
          (computeAverage ((submitVote2 s id (some v)).1.votes.map Prod.snd))] ∧
      (⟨id, player.name, v⟩ : Vote) ∈ (submitVote2 s id (some v)).1.votes.map Prod.snd := by
  refine ⟨submitVote2_gamePhase, ?_⟩
  intro s id v player hphase hget hnovote hv
  have hrec : mapGet id (submitVote2 s id (some v)).1.votes =
      some ⟨id, player.name, v⟩ := by
    rw [submitVote2_valid s id v player hv hphase hget]
    split <;> exact mapGet_mapSet_self id ⟨id, player.name, v⟩ s.votes
  refine ⟨hrec, ?_, rfl, rfl, mem_map_snd_of_mapGet hrec⟩
  rw [submitVote2_gamePhase]
  exact hphase

/-- Witness for C7: in the two-player room where only "a" has voted, "b"
submits 8 (deck 2); the vote is recorded and appears in the payload of the
deferred reveal. -/
theorem claim_C7_witness :
    samplePendingState.gamePhase = .voting ∧
    mapGet "b" samplePendingState.players = some ⟨"b", "B", true⟩ ∧
    mapHas "b" samplePendingState.votes = false ∧
    (8 : ℚ) ∈ deck2 ∧
    ((⟨"b", "B", 8⟩ : Vote) ∈
      (submitVote2 samplePendingState "b" (some 8)).1.votes.map Prod.snd) ∧
    (revealTimeout (submitVote2 samplePendingState "b" (some 8)).1).1.gamePhase =
      .results :=
  ⟨by decide, by decide, by decide, by decide,
   (claim_C7_deferred_reveal_includes_late_vote.2 samplePendingState "b" 8
      ⟨"b", "B", true⟩ (by decide) (by decide) (by decide) (by decide)).2.2.2.2,
   (claim_C7_deferred_reveal_includes_late_vote.2 samplePendingState "b" 8
      ⟨"b", "B", true⟩ (by decide) (by decide) (by decide) (by decide)).2.2.1⟩

/-- C6 counterexample: in variant 1, from the reachable state where both
players have voted (phase `results`), a further `start-voting` moves the
phase back to `voting`: the edge results→voting exists, contradicting the
strict-cycle claim that only results→waiting leaves `results`. -/
theorem claim_C6_counterexample :
    (runOps1 [.join "a" (some "A"), .join "b" (some "B"), .startVoting,
      .submitVote "a" (some 5), .submitVote "b" (some 10)]).gamePhase
        = .results ∧
    (runOps1 [.join "a" (some "A"), .join "b" (some "B"), .startVoting,
      .submitVote "a" (some 5), .submitVote "b" (some 10),
      .startVoting]).gamePhase = .voting := by
  constructor
  · decide
  · decide

/-- C6 amended: the five client operations only ever take the phase edges
waiting→voting or results→voting (start-voting), voting→results
(variant-1 completion), and voting→waiting or results→waiting
(next-round); additionally, in variant 2 the deferred reveal callback
always sets the phase to `results` from whatever phase holds when it
fires. -/
theorem claim_C6_amended_phase_edges :
    (∀ (s : RoomState) (op : Op), op ≠ .revealFire →
      clientPhaseEdge s.gamePhase (applyOp1 s op).gamePhase ∧
      clientPhaseEdge s.gamePhase (applyOp2 s op).gamePhase) ∧
    (∀ s : RoomState, (applyOp2 s .revealFire).gamePhase = .results) := by
  constructor
  · intro s op hop
    cases op with
    | join id n =>
      constructor
      · exact Or.inl (joinGame_gamePhase s id n).symm
      · exact Or.inl (joinGame_gamePhase s id n).symm
    | startVoting =>
      constructor
      · rcases startVoting1_cases s with ⟨_, he⟩ | ⟨_, he⟩
        · show clientPhaseEdge s.gamePhase (startVoting1 s).1.gamePhase
          rw [he]
          exact clientPhaseEdge_to_voting s.gamePhase
        · show clientPhaseEdge s.gamePhase (startVoting1 s).1.gamePhase
          rw [he]
          exact clientPhaseEdge_refl s.gamePhase
      · exact clientPhaseEdge_to_voting s.gamePhase
    | submitVote id v =>
      constructor
      · rcases submitVote1_gamePhase s id v with h | ⟨hv, hr⟩
        · exact Or.inl h.symm
        · exact Or.inr (Or.inr (Or.inr (Or.inl ⟨hv, hr⟩)))
      · exact Or.inl (submitVote2_gamePhase s id v).symm
    | nextRound =>
      constructor
      · exact clientPhaseEdge_to_waiting s.gamePhase
      · exact clientPhaseEdge_to_waiting s.gamePhase
    | leave id =>
      constructor
      · exact Or.inl (disconnect_gamePhase s id).symm
      · exact Or.inl (disconnect_gamePhase s id).symm
    | revealFire => exact absurd rfl hop
  · intro s
    rfl

/-- Witness for the amended C6: `start-voting` on the initial room takes
an allowed edge in both variants. -/
theorem claim_C6_amended_witness :
    (Op.startVoting ≠ Op.revealFire) ∧
    clientPhaseEdge initialRoomState.gamePhase
      (applyOp1 initialRoomState .startVoting).gamePhase ∧
    clientPhaseEdge initialRoomState.gamePhase
      (applyOp2 initialRoomState .startVoting).gamePhase :=
  ⟨by decide,
   (claim_C6_amended_phase_edges.1 initialRoomState .startVoting (by decide)).1,
   (claim_C6_amended_phase_edges.1 initialRoomState .startVoting (by decide)).2⟩

/-- C1: after every sequence of operations applied to the initial empty
room, in both variants, every key of the vote mapping is a key of the
player mapping; in particular a disconnect from any such reachable state
removes the departing participant from the vote mapping in the same step
as from the player mapping. -/
theorem claim_C1_votes_keys_subset_of_players :
    (∀ ops : List Op, votesSubset (runOps1 ops) ∧ votesSubset (runOps2 ops)) ∧
    (∀ (ops : List Op) (id : String),
      mapHas id ((disconnect (runOps1 ops) id).1).votes = false ∧
      mapHas id ((disconnect (runOps1 ops) id).1).players = false ∧
      mapHas id ((disconnect (runOps2 ops) id).1).votes = false ∧
      mapHas id ((disconnect (runOps2 ops) id).1).players = false) := by
  have h1 : ∀ ops : List Op, votesSubset (runOps1 ops) :=
    fun ops => votesSubset_foldl1 ops initialRoomState votesSubset_initial
  have h2 : ∀ ops : List Op, votesSubset (runOps2 ops) :=
    fun ops => votesSubset_foldl2 ops initialRoomState votesSubset_initial
  refine ⟨fun ops => ⟨h1 ops, h2 ops⟩, fun ops id => ?_⟩
  obtain ⟨ha, hb⟩ := disconnect_purges (h1 ops) id
  obtain ⟨hc, hd⟩ := disconnect_purges (h2 ops) id
  exact ⟨ha, hb, hc, hd⟩

end PlanningPoker
